import Mathlib

set_option linter.unusedVariables false

/-!
Shallow embedding of two source files of the bazel-gazelle repository:

* `language/go/dep.go` — the dep lock-manifest importer (`importReposFromDep`,
  `ruleUsingGoProxy`): concurrent per-project resolution into `go_repository`
  rules, bounded retry against the Go module proxy, and a final stable sort of
  the generated rules by rule name.
* `cmd/autogazelle/autogazelle.go` — the autogazelle helpers: template
  restoration (`restoreFile`, `restoreBuildFilesInDir`), the workspace walk
  wrapper (`walkWorkspace`) and the gazelle invoker (`runGazelle`).

External collaborators are modelled by explicit oracles passed as arguments:
the network (`NetEnv`, one oracle per retry attempt), the SHA-256 hash
(`hashHex`, Go `crypto/sha256`, uninterpreted here), the glob matcher
(`pathMatch`, Go `path.Match`, abstracted by its `(matched, err != nil)`
result), the filesystem (`FS`, a map from path to optional content), the
process launcher (`runOracle`) and `filepath.Abs` (`absPath`).  Goroutine
interleaving is modelled by an explicit completion schedule (a permutation of
the project indices) driving the writes into the shared result slice.
-/

namespace GazelleSpec

/-- Attribute values used by the embedded rules: plain strings and string
lists (Go `rule.SetAttr` is called with both in `dep.go`). -/
inductive AttrValue where
  | str (s : String)
  | strList (l : List String)
  deriving DecidableEq

/-- Modelled from the spec: `rule.Rule` (package `rule`, not among the
provided sources).  Per §3 a GeneratedRule is "(rule kind, rule name, ordered
mapping of attribute name → value)"; `SetAttr` overwrites an existing
attribute or appends a new one, `Name()` returns the rule name. -/
structure Rule where
  kind : String
  name : String
  attrs : List (String × AttrValue)
  deriving DecidableEq

/-- Model of `rule.NewRule(kind, name)`: a rule with no attributes yet. -/
def Rule.new (kind name : String) : Rule := ⟨kind, name, []⟩

/-- Model of `r.SetAttr(k, v)`: replace the attribute named `k` if present,
otherwise append it (keeping the ordered attribute mapping of §3). -/
def Rule.setA (r : Rule) (k : String) (v : AttrValue) : Rule :=
  if r.attrs.any (fun kv => kv.1 == k) then
    { r with attrs := r.attrs.map (fun kv => if kv.1 == k then (k, v) else kv) }
  else
    { r with attrs := r.attrs ++ [(k, v)] }

/-- Lookup of an attribute set on a rule (first binding wins, as the attrs
list never holds duplicate keys under `Rule.setA`). -/
def Rule.getAttr (r : Rule) (k : String) : Option AttrValue :=
  (r.attrs.find? (fun kv => kv.1 == k)).map (fun kv => kv.2)

/-- Modelled from the spec: `label.ImportPathToBazelRepoName` (package
`label`, not among the provided sources).  The spec states only that the rule
name is "derived deterministically from the project's name" (§3); we use the
gazelle convention of replacing every character outside `[A-Za-z0-9]` with an
underscore.  All claims depend only on this being a fixed pure function. -/
def importPathToBazelRepoName (imp : String) : String :=
  String.mk (imp.data.map (fun c => if c.isAlphanum then c else '_'))

/-- `depProject` from `dep.go`: one pinned project of the dep lock manifest
(`name`, `revision`, optional `source` override). -/
structure depProject where
  Name : String
  Revision : String
  Source : String
  deriving DecidableEq

/-- `defaultGoProxyBase` from `dep.go`. -/
def defaultGoProxyBase : String := "https://proxy.golang.org"

/-- `args.GoProxy`, defaulted when empty (`importReposFromDep`, lines 52-55). -/
def effectiveProxy (goProxyArg : String) : String :=
  if goProxyArg = "" then defaultGoProxyBase else goProxyArg

/-- Model of one HTTP response: the status code, the JSON-decoded `Version`
field (for `.info` requests; `Except.error` models a decode failure) and the
streamed archive bytes (for `.zip` requests; `Except.error` models a stream
failure). -/
structure HttpResp where
  statusCode : Nat
  version : Except Unit String
  body : Except Unit (List Nat)

/-- Network oracle: `http.Get` by URL.  `Except.error` models a transport
error (`err != nil`). -/
abbrev NetEnv := String → Except Unit HttpResp

/-- Structured forms of the `fmt.Errorf` failures of `ruleUsingGoProxy`, plus
`fuelOut` for the unreachable zero-fuel case of the retry loop model. -/
inductive GoErr where
  | infoGet (name rev : String)
  | infoStatus (name rev : String)
  | infoDecode (name rev : String)
  | zipGet (name rev : String)
  | zipStatus (name rev : String)
  | zipHash (name rev : String)
  | fuelOut
  deriving DecidableEq

/-- Model of Go `strings.HasSuffix(name, ".git")` + truncation
(`ruleUsingGoProxy`, lines 114-116). -/
def stripDotGit (s : String) : String :=
  if ".git".data.isSuffixOf s.data then String.mk (s.data.take (s.data.length - 4)) else s

/-- Model of Go `strings.HasPrefix(name, "https://")` + drop
(`ruleUsingGoProxy`, lines 117-119). -/
def stripHttps (s : String) : String :=
  if "https://".data.isPrefixOf s.data then String.mk (s.data.drop 8) else s

/-- Model of Go `strings.ToLower` restricted to ASCII (all inputs exercised
by the claims are ASCII). -/
def goToLower (s : String) : String :=
  String.mk (s.data.map Char.toLower)

/-- The module-path normalization of `ruleUsingGoProxy` (lines 111-121):
prefer a non-empty source override, strip a `.git` suffix then an `https://`
prefix from it, and lower-case the result. -/
def proxyModuleName (p : depProject) : String :=
  goToLower (if p.Source ≠ "" then stripHttps (stripDotGit p.Source) else p.Name)

/-- One attempt of `ruleUsingGoProxy` (lines 110-161): two proxy queries
(`.info` then `.zip`), each failing on transport error, non-200 status or
decode/stream failure; on success the rule receives `urls`, `sha256` and
`strip_prefix` attributes.  Returns the result together with the list of
URLs requested (the network trace of this attempt). -/
def ruleUsingGoProxy (net : NetEnv) (hashHex : List Nat → String) (goProxyBase : String)
    (p : depProject) (r : Rule) : Except GoErr Rule × List String :=
  let name := proxyModuleName p
  let infoURL := goProxyBase ++ "/" ++ name ++ "/@v/" ++ p.Revision ++ ".info"
  match net infoURL with
  | .error _ => (.error (.infoGet name p.Revision), [infoURL])
  | .ok resp =>
    if resp.statusCode ≠ 200 then (.error (.infoStatus name p.Revision), [infoURL])
    else
      match resp.version with
      | .error _ => (.error (.infoDecode name p.Revision), [infoURL])
      | .ok version =>
        let zipURL := goProxyBase ++ "/" ++ name ++ "/@v/" ++ version ++ ".zip"
        match net zipURL with
        | .error _ => (.error (.zipGet name p.Revision), [infoURL, zipURL])
        | .ok zresp =>
          if zresp.statusCode ≠ 200 then (.error (.zipStatus name p.Revision), [infoURL, zipURL])
          else
            match zresp.body with
            | .error _ => (.error (.zipHash name p.Revision), [infoURL, zipURL])
            | .ok bytes =>
              (.ok (((r.setA "urls" (.strList [zipURL])).setA "sha256"
                  (.str (hashHex bytes))).setA "strip_prefix"
                  (.str (name ++ "@" ++ version))), [infoURL, zipURL])

/-- Outcome of the retry loop of `importReposFromDep` (lines 87-97): the final
result (`Except.error` models the `panic(err)` on the fifth failure), the
URLs requested across all attempts, the sleeps performed (one entry per
`time.Sleep(5 * time.Second)`, recorded in seconds) and the number of
attempts made. -/
structure RetryOut where
  result : Except GoErr Rule
  requests : List String
  sleeps : List Nat
  attempts : Nat

/-- The loop `for attempt := 0; attempt < 5; attempt++` of
`importReposFromDep` (lines 88-97): call `ruleUsingGoProxy`, break on
success, `panic(err)` when `attempt == 4`, otherwise sleep 5 seconds and
retry.  `env` gives the network oracle seen by each attempt.  `fuel` bounds
the recursion; starting from `(attempt, fuel) = (0, 5)` the loop always ends
by break or panic before fuel runs out. -/
def retryAux (env : Nat → NetEnv) (hashHex : List Nat → String) (base : String)
    (p : depProject) (r : Rule) : Nat → Nat → RetryOut
  | _, 0 => ⟨.error .fuelOut, [], [], 0⟩
  | attempt, fuel + 1 =>
    match ruleUsingGoProxy (env attempt) hashHex base p r with
    | (.ok r2, reqs) => ⟨.ok r2, reqs, [], 1⟩
    | (.error e, reqs) =>
      if attempt = 4 then ⟨.error e, reqs, [], 1⟩
      else
        let rest := retryAux env hashHex base p r (attempt + 1) fuel
        ⟨rest.result, reqs ++ rest.requests, 5 :: rest.sleeps, rest.attempts + 1⟩

/-- The retry loop started at attempt 0 with its loop bound of 5. -/
def retryGo (env : Nat → NetEnv) (hashHex : List Nat → String) (base : String)
    (p : depProject) (r : Rule) : RetryOut :=
  retryAux env hashHex base p r 0 5

/-- The rule every goroutine builds first (lines 71-72):
`rule.NewRule("go_repository", label.ImportPathToBazelRepoName(p.Name))` with
its `importpath` attribute. -/
def baseRule (p : depProject) : Rule :=
  (Rule.new "go_repository" (importPathToBazelRepoName p.Name)).setA "importpath" (.str p.Name)

/-- Outcome of one goroutine body (lines 70-100): the produced rule (or the
propagated panic), the proxy URLs requested and the sleeps performed. -/
structure ResolveOut where
  result : Except GoErr Rule
  requests : List String
  sleeps : List Nat

/-- One goroutine body of `importReposFromDep` (lines 70-100).  `m` is the
`(ok, err != nil)` result of `path.Match(args.GoPrivate, p.Name)` (Go
standard library, abstracted as an oracle): if `ok || err != nil` the rule
carries the pinned revision as `commit` (plus `remote`/`vcs` when a source
override is present) and no network call is made; otherwise the project is
resolved through the proxy with retry. -/
def resolveProject (m : Bool × Bool) (env : Nat → NetEnv) (hashHex : List Nat → String)
    (base : String) (p : depProject) : ResolveOut :=
  let r0 := baseRule p
  if m.1 || m.2 then
    let r1 := r0.setA "commit" (.str p.Revision)
    let r2 :=
      if p.Source ≠ "" then (r1.setA "remote" (.str p.Source)).setA "vcs" (.str "git") else r1
    ⟨.ok r2, [], []⟩
  else
    let out := retryGo env hashHex base p r0
    ⟨out.result, out.requests, out.sleeps⟩

/-- The fan-out of lines 66-101: one `resolveProject` per project, goroutine
`i` receiving the per-project network oracle `env i`.  `n` is the manifest
index of the first project of `ps`. -/
def resolveResultsFrom (pathMatch : String → String → Bool × Bool) (env : Nat → Nat → NetEnv)
    (hashHex : List Nat → String) (goPrivate base : String) :
    Nat → List depProject → List ResolveOut
  | _, [] => []
  | n, p :: ps =>
    resolveProject (pathMatch goPrivate p.Name) (env n) hashHex base p ::
      resolveResultsFrom pathMatch env hashHex goPrivate base (n + 1) ps

/-- The inputs of `importReposFromDep` after the out-of-scope steps
(`ioutil.ReadFile` and TOML decoding, lines 57-64) have produced the
manifest's project list: the `path.Match` oracle, the per-project/per-attempt
network oracles, the hash, `args.GoPrivate`, `args.GoProxy` and the decoded
`projects` list. -/
structure ImportArgs where
  pathMatch : String → String → Bool × Bool
  env : Nat → Nat → NetEnv
  hashHex : List Nat → String
  GoPrivate : String
  GoProxy : String
  projects : List depProject

/-- All per-project outcomes, in manifest (slot) order. -/
def importResolved (a : ImportArgs) : List ResolveOut :=
  resolveResultsFrom a.pathMatch a.env a.hashHex a.GoPrivate (effectiveProxy a.GoProxy)
    0 a.projects

/-- Joining the goroutines (`wg.Wait()`, line 102): if any goroutine
panicked, the whole process dies and no rule list is produced (the error of
the lowest slot is reported); otherwise the shared slice `gen` holds one rule
per slot. -/
def collectOk : List ResolveOut → Except GoErr (List Rule)
  | [] => .ok []
  | o :: rest =>
    match o.result with
    | .error e => .error e
    | .ok r => (collectOk rest).map (fun rs => r :: rs)

/-- The contents of the shared slice `gen` after `wg.Wait()`, before the
final sort (lines 66-102). -/
def preSortRules (a : ImportArgs) : Except GoErr (List Rule) :=
  collectOk (importResolved a)

/-- Byte-wise lexicographic comparison on character lists, modelling Go's
`<` on strings (identical on the ASCII inputs exercised here). -/
def ltChars : List Char → List Char → Bool
  | [], [] => false
  | [], _ :: _ => true
  | _ :: _, [] => false
  | a :: as, b :: bs => if a < b then true else if b < a then false else ltChars as bs

/-- Go string comparison `a < b` as used by the sort comparator
`gen[i].Name() < gen[j].Name()` (line 104). -/
def strLt (a b : String) : Bool := ltChars a.data b.data

/-- Stable insertion of a (slot index, rule) pair: the new element passes all
strictly smaller rule names and lands before the first element not smaller
than it, so elements with equal names keep their slot order. -/
def insertTagged (x : Nat × Rule) : List (Nat × Rule) → List (Nat × Rule)
  | [] => [x]
  | y :: ys => if strLt y.2.name x.2.name then y :: insertTagged x ys else x :: y :: ys

/-- Stable sort by rule name of the slot-indexed rule list.  This is the
model of `sort.SliceStable(gen, ...)` (lines 103-105): a stable sort is
uniquely determined by its comparator, so stable insertion sort computes
exactly its result; the `Nat` tags are the slice positions, which is what
stability of `sort.SliceStable` is defined in terms of. -/
def sortTagged : List (Nat × Rule) → List (Nat × Rule)
  | [] => []
  | x :: xs => insertTagged x (sortTagged xs)

/-- The sorted, slot-tagged result of the import (lines 103-105). -/
def importTagged (a : ImportArgs) : Except GoErr (List (Nat × Rule)) :=
  (preSortRules a).map (fun rs => sortTagged rs.enum)

/-- `importReposFromDep` (lines 51-108) after manifest decoding: resolve all
projects, join, stable-sort by rule name and return the generated rules (or
the unrecoverable error). -/
def importReposFromDep (a : ImportArgs) : Except GoErr (List Rule) :=
  (importTagged a).map (List.map Prod.snd)

/-- The shared slice `gen := make([]*rule.Rule, len(file.Projects))` being
filled by the goroutines in completion order `σ`: each completing goroutine
`i` writes its rule into slot `i` (disjoint-slot ownership, no locking). -/
def runSchedule (rs : List Rule) (σ : List Nat) : List (Option Rule) :=
  σ.foldl (fun acc i => acc.set i rs[i]?) (List.replicate rs.length none)

/-- `importReposFromDep` with the goroutine completions happening in order
`σ`: the slice is filled in that order, then sorted as in the source.  For
any permutation `σ` of the slots this equals `importReposFromDep`. -/
def importReposWithSchedule (a : ImportArgs) (σ : List Nat) : Except GoErr (List Rule) :=
  (preSortRules a).map
    (fun rs => (sortTagged ((runSchedule rs σ).reduceOption).enum).map Prod.snd)

/-- Filesystem model for `autogazelle.go`: a map from path to the optional
file content.  `os.Open`/`os.Stat` fail exactly on absent paths. -/
abbrev FS := String → Option String

/-- Writing (creating or fully truncating) a file. -/
def updateFS (fs : FS) (p c : String) : FS :=
  fun q => if q = p then some c else fs q

/-- The generated-file header written by `restoreFile` (lines 169-173):
`# This file was generated from <src base name>\n# by <program name>\n# DO NOT EDIT\n\n`. -/
def genHeader (srcBase prog : String) : String :=
  "# This file was generated from " ++ srcBase ++ "\n# by " ++ prog ++ "\n# DO NOT EDIT\n\n"

/-- Model of Go `filepath.Base` (standard library) on slash-separated paths:
empty path gives `.`, trailing slashes are stripped, then the last element is
taken (`/` when nothing remains). -/
def baseName (path : String) : String :=
  if path = "" then "."
  else
    let cs := (path.data.reverse.dropWhile (fun c => c = '/')).reverse
    if cs.isEmpty then "/"
    else String.mk (cs.reverse.takeWhile (fun c => c ≠ '/')).reverse

/-- Model of Go `filepath.Join` on the simple (already clean) paths used
here. -/
def joinPath (dir name : String) : String :=
  if dir = "" then name else dir ++ "/" ++ name

/-- The error cases of `restoreFile` that the claims exercise: the source
cannot be opened, or the destination cannot be created.  (Write and close
errors of the destination are not modelled; no claim concerns them.) -/
inductive RestoreErr where
  | openSrc
  | createDest
  deriving DecidableEq

/-- `restoreFile(src, dest)` (lines 152-180): open `src` (returning its error
before touching `dest`), create/truncate `dest` (oracle `canCreate` models
`os.Create` failures), then write the header followed by the verbatim source
bytes.  Returns the error, if any, together with the resulting filesystem. -/
def restoreFile (prog : String) (canCreate : String → Bool) (fs : FS)
    (src dest : String) : Option RestoreErr × FS :=
  match fs src with
  | none => (some .openSrc, fs)
  | some content =>
    if canCreate dest then
      (none, updateFS fs dest (genHeader (baseName src) prog ++ content))
    else (some .createDest, fs)

/-- State threaded through `restoreBuildFilesInDir`: the filesystem, the
paths passed to `os.Stat` in order, and the log messages emitted. -/
structure DirRestoreOut where
  fs : FS
  checked : List String
  logMsgs : List String

/-- One iteration of the loop of `restoreBuildFilesInDir` (lines 140-149):
stat `dir/<base>.in`, skip silently (`continue`) when it is missing,
otherwise restore it to `dir/<base>`, logging (not returning) any restore
error. -/
def restoreStep (prog : String) (canCreate : String → Bool) (dir : String)
    (st : DirRestoreOut) (base : String) : DirRestoreOut :=
  let inPath := joinPath dir (base ++ ".in")
  let checked2 := st.checked ++ [inPath]
  match st.fs inPath with
  | none => ⟨st.fs, checked2, st.logMsgs⟩
  | some _ =>
    match restoreFile prog canCreate st.fs inPath (joinPath dir base) with
    | (none, fs2) => ⟨fs2, checked2, st.logMsgs⟩
    | (some _, fs2) => ⟨fs2, checked2, st.logMsgs ++ ["restore failed: " ++ inPath]⟩

/-- `restoreBuildFilesInDir(dir)` (lines 139-150): the loop
`for _, base := range []string{"BUILD.bazel", "BUILD"}`. -/
def restoreBuildFilesInDir (prog : String) (canCreate : String → Bool) (fs : FS)
    (dir : String) : DirRestoreOut :=
  ["BUILD.bazel", "BUILD"].foldl (restoreStep prog canCreate dir) ⟨fs, [], []⟩

/-- Observable outcome of `walkWorkspace` (lines 187-213): the callback
invocations (directory, regular files), the log messages, and the error
returned to the caller — the Go function's signature
`func walkWorkspace(root string, walkFunc func(dir string, files []string))`
returns nothing, so `callerErr` is `none` on every path. -/
structure WalkOut where
  calls : List (String × List String)
  logMsgs : List String
  callerErr : Option String

/-- `walkWorkspace` (lines 187-213).  `absPath` models `filepath.Abs` (Go
standard library); `walkEngine` is modelled from the spec: `walk.Walk`
(package `walk`, not among the provided sources), which per §4.1 yields, for
each visited directory, its absolute path and its visible regular files.  On
`filepath.Abs` failure the function logs
`failed to find absolute path: <err>` and returns without invoking the
callback (lines 194-198). -/
def walkWorkspace (absPath : String → Except String String)
    (walkEngine : String → List (String × List String)) (root : String) : WalkOut :=
  match absPath root with
  | .error e => ⟨[], ["failed to find absolute path: " ++ e], none⟩
  | .ok absRoot => ⟨walkEngine absRoot, [], none⟩

/-- The two modes of `runGazelle` (lines 93-98). -/
inductive Mode where
  | fullMode
  | fastMode
  deriving DecidableEq

/-- Observable outcome of `runGazelle`: the argv of the launched process (or
`none` when no process was launched) and the reported result. -/
structure GazelleRun where
  launched : Option (List String)
  result : Except String Unit

/-- `runGazelle(mode, dirs)` (lines 103-120): in fast mode with no
directories, return success without launching anything; otherwise build
`[$BAZEL_REAL, "run", <gazelle label>, "--", "-args", "-index=false"]`, and
in fast mode append `-r=false` followed by exactly the given directories;
the launch result (`runOracle`, modelling `cmd.Run()`) is returned. -/
def runGazelle (bazelReal gazelleLabel : String)
    (runOracle : List String → Except String Unit) (mode : Mode) (dirs : List String) :
    GazelleRun :=
  if mode = Mode.fastMode ∧ dirs = [] then ⟨none, .ok ()⟩
  else
    let args1 := [bazelReal, "run", gazelleLabel, "--", "-args"] ++ ["-index=false"]
    let args2 := if mode = Mode.fastMode then args1 ++ ["-r=false"] ++ dirs else args1
    ⟨some args2, runOracle args2⟩

/-! Concrete instances used by the witnesses below. -/

/-- A network oracle on which every request fails. -/
def cNet : NetEnv := fun _ => .error ()

/-- A successful proxy response. -/
def cOkResp : HttpResp := ⟨200, .ok "v1.0.0", .ok [1, 2, 3]⟩

/-- Per-attempt oracle failing on attempts 0 and 1, succeeding from attempt 2. -/
def cFlakyEnv : Nat → NetEnv := fun attempt _ => if attempt < 2 then .error () else .ok cOkResp

/-- Per-attempt oracle on which every attempt fails. -/
def cFailEnv : Nat → NetEnv := fun _ _ => .error ()

/-- A fixed hash oracle. -/
def cHH : List Nat → String := fun _ => "h"

/-- A project resolved through the proxy (no private match, no override). -/
def cProjM : depProject := ⟨"example.com/m", "abc123", ""⟩

/-- Import arguments whose single project never matches the private pattern
and whose proxy always fails. -/
def cArgsFail : ImportArgs := ⟨fun _ _ => (false, false), fun _ => cFailEnv, cHH, "", "", [cProjM]⟩

/-- Import arguments with two private projects (no network involved). -/
def cArgs : ImportArgs :=
  ⟨fun _ _ => (true, false), fun _ _ => cNet, cHH, "*", "",
    [⟨"example.com/b", "r1", ""⟩, ⟨"example.com/a", "r2", ""⟩]⟩

/-- Two distinct projects whose derived rule names collide (`a_b`). -/
def cProjA : depProject := ⟨"a/b", "r1", ""⟩

/-- Second project of the name-collision pair. -/
def cProjB : depProject := ⟨"a.b", "r2", ""⟩

/-- Import arguments with the name-colliding private projects. -/
def cArgsDup : ImportArgs := ⟨fun _ _ => (true, false), fun _ _ => cNet, cHH, "*", "", [cProjA, cProjB]⟩

/-- The rule produced for `cProjA`. -/
def cRiDup : Rule := (baseRule cProjA).setA "commit" (.str "r1")

/-- The rule produced for `cProjB`. -/
def cRjDup : Rule := (baseRule cProjB).setA "commit" (.str "r2")

/-- The pre-sort rule slice for `cArgsDup`. -/
def cRsDup : List Rule := [cRiDup, cRjDup]

/-- A project with an `https://...git` source override. -/
def cSrcGit : depProject := ⟨"x", "rev", "https://example.com/foo.git"⟩

/-- A private project with a source override. -/
def cSrcProj : depProject := ⟨"example.com/p", "deadbeef", "https://example.com/p"⟩

/-- A filesystem holding exactly one template file. -/
def cFS : FS := fun p => if p = "d/BUILD.in" then some "go_library()" else none

/-! Order theory for the byte-wise string comparison. -/

theorem ltChars_irrefl : ∀ a : List Char, ltChars a a = false
  | [] => rfl
  | c :: cs => by
    simp only [ltChars, if_neg (lt_irrefl c)]
    exact ltChars_irrefl cs

theorem ltChars_asymm : ∀ a b : List Char, ltChars a b = true → ltChars b a = false
  | [], [], h => by simp [ltChars] at h ⊢
  | [], _ :: _, _ => rfl
  | _ :: _, [], h => by simp [ltChars] at h
  | a :: as, b :: bs, h => by
    simp only [ltChars] at h ⊢
    by_cases hab : a < b
    · rw [if_neg (asymm hab), if_pos hab]
    · rw [if_neg hab] at h
      by_cases hba : b < a
      · rw [if_pos hba] at h
        exact absurd h (by simp)
      · rw [if_neg hba] at h
        rw [if_neg hba, if_neg hab]
        exact ltChars_asymm as bs h

theorem ltChars_le_trans : ∀ a b c : List Char,
    ltChars a b = false → ltChars b c = false → ltChars a c = false
  | [], [], c, _, h2 => h2
  | [], _ :: _, _, h1, _ => by simp [ltChars] at h1
  | _ :: _, _, [], _, _ => by simp [ltChars]
  | _ :: _, [], _ :: _, _, h2 => by simp [ltChars] at h2
  | x :: xs, y :: ys, z :: zs, h1, h2 => by
    simp only [ltChars] at h1 h2 ⊢
    by_cases hxy : x < y
    · rw [if_pos hxy] at h1
      exact absurd h1 (by simp)
    · rw [if_neg hxy] at h1
      by_cases hyz : y < z
      · rw [if_pos hyz] at h2
        exact absurd h2 (by simp)
      · rw [if_neg hyz] at h2
        have hzx : z ≤ x := le_trans (not_lt.mp hyz) (not_lt.mp hxy)
        rw [if_neg (not_lt.mpr hzx)]
        by_cases hyx : y < x
        · rw [if_pos (lt_of_le_of_lt (not_lt.mp hyz) hyx)]
        · rw [if_neg hyx] at h1
          by_cases hzy : z < y
          · rw [if_pos (lt_of_lt_of_le hzy (not_lt.mp hxy))]
          · rw [if_neg hzy] at h2
            by_cases hzx2 : z < x
            · rw [if_pos hzx2]
            · rw [if_neg hzx2]
              exact ltChars_le_trans xs ys zs h1 h2

theorem strLt_irrefl (a : String) : strLt a a = false := ltChars_irrefl a.data

theorem strLt_asymm {a b : String} (h : strLt a b = true) : strLt b a = false :=
  ltChars_asymm _ _ h

theorem strLt_le_trans {a b c : String} (h1 : strLt a b = false) (h2 : strLt b c = false) :
    strLt a c = false :=
  ltChars_le_trans _ _ _ h1 h2

theorem strLt_ne {a b : String} (h : strLt a b = true) : a ≠ b := by
  intro he
  subst he
  rw [strLt_irrefl] at h
  exact absurd h (by simp)

/-! The stable sort modelling `sort.SliceStable`. -/

theorem insertTagged_perm (x : Nat × Rule) :
    ∀ l : List (Nat × Rule), List.Perm (insertTagged x l) (x :: l)
  | [] => List.Perm.refl _
  | y :: ys => by
    simp only [insertTagged]
    by_cases h : strLt y.2.name x.2.name = true
    · rw [if_pos h]
      exact ((insertTagged_perm x ys).cons y).trans (List.Perm.swap x y ys)
    · rw [if_neg h]

theorem insertTagged_pairwise (x : Nat × Rule) :
    ∀ l : List (Nat × Rule),
      List.Pairwise (fun u v : Nat × Rule => strLt v.2.name u.2.name = false) l →
      List.Pairwise (fun u v : Nat × Rule => strLt v.2.name u.2.name = false) (insertTagged x l)
  | [], _ => by simp [insertTagged]
  | y :: ys, h => by
    rcases List.pairwise_cons.mp h with ⟨hy, hys⟩
    simp only [insertTagged]
    by_cases hlt : strLt y.2.name x.2.name = true
    · rw [if_pos hlt]
      refine List.pairwise_cons.mpr ⟨?_, insertTagged_pairwise x ys hys⟩
      intro z hz
      rcases List.mem_cons.mp ((insertTagged_perm x ys).mem_iff.mp hz) with rfl | hzys
      · exact strLt_asymm hlt
      · exact hy z hzys
    · rw [if_neg hlt]
      have hxy : strLt y.2.name x.2.name = false := by
        cases hq : strLt y.2.name x.2.name
        · rfl
        · exact absurd hq hlt
      refine List.pairwise_cons.mpr ⟨?_, h⟩
      intro z hz
      rcases List.mem_cons.mp hz with rfl | hzys
      · exact hxy
      · exact strLt_le_trans (hy z hzys) hxy

theorem sortTagged_perm : ∀ l : List (Nat × Rule), List.Perm (sortTagged l) l
  | [] => List.Perm.refl _
  | x :: xs => (insertTagged_perm x (sortTagged xs)).trans ((sortTagged_perm xs).cons x)

theorem sortTagged_pairwise : ∀ l : List (Nat × Rule),
    List.Pairwise (fun u v : Nat × Rule => strLt v.2.name u.2.name = false) (sortTagged l)
  | [] => List.Pairwise.nil
  | x :: xs => insertTagged_pairwise x (sortTagged xs) (sortTagged_pairwise xs)

theorem filter_insertTagged (k : String) (x : Nat × Rule) :
    ∀ l : List (Nat × Rule),
      (insertTagged x l).filter (fun q => q.2.name == k)
        = if (x.2.name == k) = true then x :: l.filter (fun q => q.2.name == k)
          else l.filter (fun q => q.2.name == k)
  | [] => by
    simp only [insertTagged, List.filter_cons, List.filter_nil]
  | y :: ys => by
    simp only [insertTagged]
    by_cases hlt : strLt y.2.name x.2.name = true
    · rw [if_pos hlt]
      by_cases px : (x.2.name == k) = true
      · have hxk : x.2.name = k := by simpa using px
        have hyk : ¬ ((y.2.name == k) = true) := by
          simp only [beq_iff_eq]
          exact fun he => strLt_ne hlt (he.trans hxk.symm)
        rw [List.filter_cons, if_neg hyk, filter_insertTagged k x ys, if_pos px, if_pos px,
          List.filter_cons, if_neg hyk]
      · rw [List.filter_cons, filter_insertTagged k x ys, if_neg px, if_neg px, List.filter_cons]
    · rw [if_neg hlt, List.filter_cons]

theorem filter_sortTagged (k : String) :
    ∀ l : List (Nat × Rule),
      (sortTagged l).filter (fun q => q.2.name == k) = l.filter (fun q => q.2.name == k)
  | [] => rfl
  | x :: xs => by
    simp only [sortTagged]
    rw [filter_insertTagged k x (sortTagged xs), List.filter_cons]
    by_cases px : (x.2.name == k) = true
    · rw [if_pos px, if_pos px, filter_sortTagged k xs]
    · rw [if_neg px, if_neg px, filter_sortTagged k xs]

theorem sortTagged_stable {x y : Nat × Rule} {l : List (Nat × Rule)}
    (hname : x.2.name = y.2.name) (hsub : List.Sublist [x, y] l) :
    List.Sublist [x, y] (sortTagged l) := by
  have hfx : ((fun q : Nat × Rule => q.2.name == x.2.name) x) = true := by simp
  have hfy : ((fun q : Nat × Rule => q.2.name == x.2.name) y) = true := by
    simp [← hname]
  have h1 := hsub.filter (fun q : Nat × Rule => q.2.name == x.2.name)
  rw [List.filter_cons, if_pos hfx, List.filter_cons, if_pos hfy, List.filter_nil] at h1
  rw [← filter_sortTagged x.2.name l] at h1
  exact h1.trans (List.filter_sublist _)

theorem pair_sublist_of_getElem? {α : Type} :
    ∀ (l : List α) (i j : Nat) (x y : α), i < j → l[i]? = some x → l[j]? = some y →
      List.Sublist [x, y] l
  | [], i, j, x, y, hij, hi, hj => by simp at hi
  | a :: t, 0, j, x, y, hij, hi, hj => by
    obtain ⟨j2, rfl⟩ : ∃ j2, j = j2 + 1 := ⟨j - 1, by omega⟩
    have hax : a = x := by simpa using hi
    subst hax
    simp only [List.getElem?_cons_succ] at hj
    exact (List.singleton_sublist.mpr (List.getElem?_mem hj)).cons₂ a
  | a :: t, i + 1, j, x, y, hij, hi, hj => by
    obtain ⟨j2, rfl⟩ : ∃ j2, j = j2 + 1 := ⟨j - 1, by omega⟩
    simp only [List.getElem?_cons_succ] at hi hj
    exact (pair_sublist_of_getElem? t i j2 x y (by omega) hi hj).cons a

/-! The shared result slice written in completion order. -/

theorem foldlSet_getElem? (rs : List Rule) :
    ∀ (σ : List Nat) (acc : List (Option Rule)) (j : Nat),
      (σ.foldl (fun acc i => acc.set i rs[i]?) acc)[j]?
        = if j ∈ σ ∧ j < acc.length then some rs[j]? else acc[j]?
  | [], acc, j => by simp
  | i :: σ2, acc, j => by
    simp only [List.foldl_cons]
    rw [foldlSet_getElem? rs σ2 (acc.set i rs[i]?) j, List.length_set]
    by_cases hj : j ∈ σ2 ∧ j < acc.length
    · rw [if_pos hj, if_pos ⟨List.mem_cons_of_mem i hj.1, hj.2⟩]
    · rw [if_neg hj]
      by_cases hji : j = i ∧ j < acc.length
      · obtain ⟨rfl, hlen⟩ := hji
        rw [List.getElem?_set, if_pos rfl, if_pos hlen,
          if_pos ⟨List.mem_cons_self j σ2, hlen⟩]
      · have hcond : ¬ (j ∈ i :: σ2 ∧ j < acc.length) := by
          rintro ⟨hmem, hlen⟩
          rcases List.mem_cons.mp hmem with rfl | hmem2
          · exact hji ⟨rfl, hlen⟩
          · exact hj ⟨hmem2, hlen⟩
        rw [if_neg hcond, List.getElem?_set]
        by_cases hij2 : i = j
        · subst hij2
          have hlen : ¬ i < acc.length := fun hl => hji ⟨rfl, hl⟩
          rw [if_pos rfl, if_neg hlen]
          exact (List.getElem?_eq_none (by omega)).symm
        · rw [if_neg hij2]

theorem runSchedule_perm_eq (rs : List Rule) (σ : List Nat)
    (h : List.Perm σ (List.range rs.length)) : runSchedule rs σ = rs.map some := by
  apply List.ext_getElem?
  intro j
  rw [runSchedule, foldlSet_getElem? rs σ (List.replicate rs.length none) j,
    List.length_replicate]
  by_cases hj : j < rs.length
  · have hmem : j ∈ σ := h.mem_iff.mpr (List.mem_range.mpr hj)
    rw [if_pos ⟨hmem, hj⟩, List.getElem?_map, List.getElem?_eq_getElem hj]
    rfl
  · have hmem : j ∉ σ := fun hm => hj (List.mem_range.mp (h.mem_iff.mp hm))
    rw [if_neg (fun hc => hmem hc.1), List.getElem?_replicate, if_neg hj]
    exact (List.getElem?_eq_none (by simpa using Nat.le_of_not_lt hj)).symm

theorem reduceOption_map_some : ∀ l : List Rule, (l.map some).reduceOption = l
  | [] => rfl
  | a :: t => by simp [List.reduceOption_cons_of_some, reduceOption_map_some t]

/-! Joining the goroutines. -/

theorem isOk_map {ε α β : Type} (f : α → β) (x : Except ε α) : (x.map f).isOk = x.isOk := by
  cases x <;> rfl

theorem collectOk_length : ∀ (l : List ResolveOut) (rs : List Rule),
    collectOk l = .ok rs → rs.length = l.length
  | [], rs, h => by
    simp only [collectOk] at h
    obtain rfl : ([] : List Rule) = rs := by simpa using h
    rfl
  | o :: t, rs, h => by
    simp only [collectOk] at h
    cases hres : o.result with
    | error e =>
      rw [hres] at h
      exact absurd h (by simp)
    | ok r =>
      rw [hres] at h
      cases hrest : collectOk t with
      | error e =>
        rw [hrest] at h
        exact absurd h (by simp [Except.map])
      | ok rs2 =>
        rw [hrest] at h
        simp only [Except.map] at h
        obtain rfl : r :: rs2 = rs := by simpa using h
        simp [collectOk_length t rs2 hrest]

theorem collectOk_isOk_false : ∀ (l : List ResolveOut) (i : Nat) (o : ResolveOut),
    l[i]? = some o → (o.result).isOk = false → (collectOk l).isOk = false
  | [], i, o, h, _ => by simp at h
  | a :: t, 0, o, h, hres => by
    have hao : a = o := by simpa using h
    subst hao
    simp only [collectOk]
    cases hr : a.result with
    | error e => rfl
    | ok r =>
      rw [hr] at hres
      simp [Except.isOk, Except.toBool] at hres
  | a :: t, i + 1, o, h, hres => by
    simp only [List.getElem?_cons_succ] at h
    simp only [collectOk]
    cases hr : a.result with
    | error e => rfl
    | ok r =>
      have hrec := collectOk_isOk_false t i o h hres
      rw [isOk_map]
      exact hrec

/-! The fan-out and the rule names it produces. -/

theorem resolveResultsFrom_length (pm : String → String → Bool × Bool) (env : Nat → Nat → NetEnv)
    (hh : List Nat → String) (priv base : String) :
    ∀ (ps : List depProject) (n : Nat),
      (resolveResultsFrom pm env hh priv base n ps).length = ps.length
  | [], n => rfl
  | p :: ps, n => by
    simp [resolveResultsFrom, resolveResultsFrom_length pm env hh priv base ps (n + 1)]

theorem resolveResultsFrom_getElem? (pm : String → String → Bool × Bool)
    (env : Nat → Nat → NetEnv) (hh : List Nat → String) (priv base : String) :
    ∀ (ps : List depProject) (n i : Nat) (q : depProject), ps[i]? = some q →
      (resolveResultsFrom pm env hh priv base n ps)[i]?
        = some (resolveProject (pm priv q.Name) (env (n + i)) hh base q)
  | [], n, i, q, h => by simp at h
  | p :: ps, n, 0, q, h => by
    have hpq : p = q := by simpa using h
    subst hpq
    simp [resolveResultsFrom]
  | p :: ps, n, i + 1, q, h => by
    simp only [List.getElem?_cons_succ] at h
    simp only [resolveResultsFrom, List.getElem?_cons_succ]
    rw [resolveResultsFrom_getElem? pm env hh priv base ps (n + 1) i q h]
    have harith : n + 1 + i = n + (i + 1) := by omega
    rw [harith]

theorem rule_name_setA (r : Rule) (k : String) (v : AttrValue) : (r.setA k v).name = r.name := by
  unfold Rule.setA
  split <;> rfl

theorem ruleUsingGoProxy_name (net : NetEnv) (hh : List Nat → String) (base : String)
    (p : depProject) (r r2 : Rule) (reqs : List String)
    (h : ruleUsingGoProxy net hh base p r = (.ok r2, reqs)) : r2.name = r.name := by
  unfold ruleUsingGoProxy at h
  dsimp only at h
  split at h
  next e heq => simp at h
  next resp heq =>
    split at h
    · simp at h
    · split at h
      next e2 heq2 => simp at h
      next version heq2 =>
        split at h
        next e3 heq3 => simp at h
        next zresp heq3 =>
          split at h
          · simp at h
          · split at h
            next e4 heq4 => simp at h
            next bytes heq4 =>
              simp only [Prod.mk.injEq] at h
              obtain rfl : _ = r2 := Except.ok.inj h.1
              simp [rule_name_setA]

theorem retryAux_name (env : Nat → NetEnv) (hh : List Nat → String) (base : String)
    (p : depProject) (r : Rule) :
    ∀ (fuel attempt : Nat) (r2 : Rule),
      (retryAux env hh base p r attempt fuel).result = .ok r2 → r2.name = r.name
  | 0, attempt, r2, h => by simp [retryAux] at h
  | fuel + 1, attempt, r2, h => by
    rcases hcall : ruleUsingGoProxy (env attempt) hh base p r with ⟨res, reqs⟩
    cases res with
    | ok rr =>
      simp only [retryAux, hcall] at h
      obtain rfl : rr = r2 := by simpa using h
      exact ruleUsingGoProxy_name (env attempt) hh base p r rr reqs hcall
    | error e =>
      by_cases ha : attempt = 4
      · simp only [retryAux, hcall, if_pos ha] at h
        exact absurd h (by simp)
      · simp only [retryAux, hcall, if_neg ha] at h
        exact retryAux_name env hh base p r fuel (attempt + 1) r2 h

theorem resolveProject_name (m : Bool × Bool) (env : Nat → NetEnv) (hh : List Nat → String)
    (base : String) (p : depProject) (r : Rule)
    (h : (resolveProject m env hh base p).result = .ok r) :
    r.name = importPathToBazelRepoName p.Name := by
  have hbase : (baseRule p).name = importPathToBazelRepoName p.Name := by
    simp [baseRule, rule_name_setA, Rule.new]
  simp only [resolveProject] at h
  by_cases hm : (m.1 || m.2) = true
  · rw [if_pos hm] at h
    by_cases hs : p.Source ≠ ""
    · rw [if_pos hs] at h
      obtain rfl : _ = r := by simpa using h
      simp [rule_name_setA, hbase]
    · rw [if_neg hs] at h
      obtain rfl : _ = r := by simpa using h
      simp [rule_name_setA, hbase]
  · rw [if_neg hm] at h
    rw [retryAux_name env hh base p (baseRule p) 5 0 r h]
    exact hbase

theorem collectOk_names (pm : String → String → Bool × Bool) (env : Nat → Nat → NetEnv)
    (hh : List Nat → String) (priv base : String) :
    ∀ (ps : List depProject) (n : Nat) (rs : List Rule),
      collectOk (resolveResultsFrom pm env hh priv base n ps) = .ok rs →
      rs.map Rule.name = ps.map (fun p => importPathToBazelRepoName p.Name)
  | [], n, rs, h => by
    simp only [resolveResultsFrom, collectOk] at h
    obtain rfl : ([] : List Rule) = rs := by simpa using h
    rfl
  | p :: ps, n, rs, h => by
    simp only [resolveResultsFrom, collectOk] at h
    cases hres : (resolveProject (pm priv p.Name) (env n) hh base p).result with
    | error e =>
      rw [hres] at h
      exact absurd h (by simp)
    | ok r =>
      rw [hres] at h
      cases hrest : collectOk (resolveResultsFrom pm env hh priv base (n + 1) ps) with
      | error e =>
        rw [hrest] at h
        exact absurd h (by simp [Except.map])
      | ok rs2 =>
        rw [hrest] at h
        simp only [Except.map] at h
        obtain rfl : r :: rs2 = rs := by simpa using h
        simp only [List.map_cons]
        rw [resolveProject_name _ _ _ _ _ _ hres,
          collectOk_names pm env hh priv base ps (n + 1) rs2 hrest]

/-! The retry loop. -/

theorem retryAux_all_fail (env : Nat → NetEnv) (hh : List Nat → String) (base : String)
    (p : depProject) (r : Rule) :
    ∀ (fuel attempt : Nat), attempt + fuel = 5 → 0 < fuel →
      (∀ j, attempt ≤ j → j < 5 → ((ruleUsingGoProxy (env j) hh base p r).1).isOk = false) →
      ((retryAux env hh base p r attempt fuel).result).isOk = false ∧
        (retryAux env hh base p r attempt fuel).attempts = fuel ∧
        (retryAux env hh base p r attempt fuel).sleeps = List.replicate (fuel - 1) 5
  | 0, attempt, heq, hpos, hf => absurd hpos (by omega)
  | fuel + 1, attempt, heq, hpos, hf => by
    rcases hcall : ruleUsingGoProxy (env attempt) hh base p r with ⟨res, reqs⟩
    cases res with
    | ok rr =>
      have hfa := hf attempt (le_refl _) (by omega)
      rw [hcall] at hfa
      simp [Except.isOk, Except.toBool] at hfa
    | error e =>
      by_cases ha : attempt = 4
      · have hf0 : fuel = 0 := by omega
        subst hf0
        refine ⟨?_, ?_, ?_⟩ <;> simp [retryAux, hcall, if_pos ha, Except.isOk, Except.toBool]
      · have hrec := retryAux_all_fail env hh base p r fuel (attempt + 1) (by omega) (by omega)
          (fun j hj hj5 => hf j (by omega) hj5)
        have hrep : List.replicate fuel 5 = 5 :: List.replicate (fuel - 1) 5 := by
          rw [show fuel = (fuel - 1) + 1 from by omega, List.replicate_succ]
          simp
        refine ⟨?_, ?_, ?_⟩
        · simp only [retryAux, hcall, if_neg ha]
          exact hrec.1
        · simp only [retryAux, hcall, if_neg ha]
          rw [hrec.2.1]
        · simp only [retryAux, hcall, if_neg ha]
          rw [hrec.2.2]
          show 5 :: List.replicate (fuel - 1) 5 = List.replicate fuel 5
          exact hrep.symm

theorem retryAux_first_success (env : Nat → NetEnv) (hh : List Nat → String) (base : String)
    (p : depProject) (r : Rule) :
    ∀ (fuel attempt k : Nat), attempt + fuel = 5 → attempt ≤ k → k < 5 →
      (∀ j, attempt ≤ j → j < k → ((ruleUsingGoProxy (env j) hh base p r).1).isOk = false) →
      ((ruleUsingGoProxy (env k) hh base p r).1).isOk = true →
      (retryAux env hh base p r attempt fuel).result = (ruleUsingGoProxy (env k) hh base p r).1 ∧
        (retryAux env hh base p r attempt fuel).attempts = k - attempt + 1 ∧
        (retryAux env hh base p r attempt fuel).sleeps = List.replicate (k - attempt) 5
  | 0, attempt, k, heq, hak, hk5, hf, hk => by omega
  | fuel + 1, attempt, k, heq, hak, hk5, hf, hk => by
    by_cases hake : attempt = k
    · subst hake
      rcases hcall : ruleUsingGoProxy (env attempt) hh base p r with ⟨res, reqs⟩
      cases res with
      | error e =>
        rw [hcall] at hk
        simp [Except.isOk, Except.toBool] at hk
      | ok rr =>
        refine ⟨?_, ?_, ?_⟩ <;> simp [retryAux, hcall]
    · have haklt : attempt < k := by omega
      rcases hcall : ruleUsingGoProxy (env attempt) hh base p r with ⟨res, reqs⟩
      cases res with
      | ok rr =>
        have hfa := hf attempt (le_refl _) haklt
        rw [hcall] at hfa
        simp [Except.isOk, Except.toBool] at hfa
      | error e =>
        have ha : ¬ attempt = 4 := by omega
        have hrec := retryAux_first_success env hh base p r fuel (attempt + 1) k (by omega)
          (by omega) hk5 (fun j hj hjk => hf j (by omega) hjk) hk
        have hrep : List.replicate (k - attempt) 5
            = 5 :: List.replicate (k - (attempt + 1)) 5 := by
          rw [show k - attempt = (k - (attempt + 1)) + 1 from by omega, List.replicate_succ]
        refine ⟨?_, ?_, ?_⟩
        · simp only [retryAux, hcall, if_neg ha]
          exact hrec.1
        · simp only [retryAux, hcall, if_neg ha]
          rw [hrec.2.1]
          omega
        · simp only [retryAux, hcall, if_neg ha]
          rw [hrec.2.2]
          exact hrep.symm

/-! The claims about the dep importer. -/

/-- C1: for a manifest with `N` projects, absent an unrecoverable error the
importer returns exactly `N` rules, one per project with the rule name
derived deterministically from each project's name (the returned names are a
permutation of the per-project derived names), the output is sorted in
ascending rule-name order, and the result is independent of the completion
order of the concurrent per-project resolutions (any permutation schedule of
the slot writes yields the same rule list). -/
theorem importReposFromDep_count_names_sorted_schedule
    (a : ImportArgs) (gen : List Rule) (h : importReposFromDep a = .ok gen) :
    gen.length = a.projects.length
    ∧ List.Perm (gen.map Rule.name)
        (a.projects.map (fun p => importPathToBazelRepoName p.Name))
    ∧ List.Pairwise (fun r s : Rule => strLt s.name r.name = false) gen
    ∧ (∀ σ : List Nat, List.Perm σ (List.range a.projects.length) →
        importReposWithSchedule a σ = importReposFromDep a) := by
  obtain ⟨rs, hrs, hgen⟩ : ∃ rs, preSortRules a = .ok rs
      ∧ gen = (sortTagged rs.enum).map Prod.snd := by
    unfold importReposFromDep importTagged at h
    cases hps : preSortRules a with
    | error e =>
      rw [hps] at h
      exact absurd h (by simp [Except.map])
    | ok rs =>
      rw [hps] at h
      simp only [Except.map] at h
      exact ⟨rs, rfl, (Except.ok.inj h).symm⟩
  have hlen_rs : rs.length = a.projects.length := by
    rw [collectOk_length (importResolved a) rs hrs]
    exact resolveResultsFrom_length a.pathMatch a.env a.hashHex a.GoPrivate
      (effectiveProxy a.GoProxy) a.projects 0
  have hperm_tag : List.Perm (sortTagged rs.enum) rs.enum := sortTagged_perm _
  have hnames : rs.map Rule.name
      = a.projects.map (fun p => importPathToBazelRepoName p.Name) :=
    collectOk_names a.pathMatch a.env a.hashHex a.GoPrivate (effectiveProxy a.GoProxy)
      a.projects 0 rs hrs
  refine ⟨?_, ?_, ?_, ?_⟩
  · rw [hgen, List.length_map, hperm_tag.length_eq, List.enum_length, hlen_rs]
  · have e2 : rs.enum.map (Rule.name ∘ Prod.snd) = rs.map Rule.name := by
      rw [← List.map_map, List.enum_map_snd]
    have hper := hperm_tag.map (Rule.name ∘ Prod.snd)
    rw [e2, hnames] at hper
    rw [hgen, List.map_map]
    exact hper
  · rw [hgen]
    exact (sortTagged_pairwise rs.enum).map Prod.snd (fun u v huv => huv)
  · intro σ hσ
    unfold importReposWithSchedule importReposFromDep importTagged
    rw [hrs]
    simp only [Except.map]
    rw [runSchedule_perm_eq rs σ (by rw [hlen_rs]; exact hσ), reduceOption_map_some]

/-- Witness for C1 at a concrete two-project manifest, with the reversed
completion schedule `[1, 0]`. -/
theorem importReposFromDep_count_names_sorted_schedule_witness :
    ∃ gen, importReposFromDep cArgs = Except.ok gen
      ∧ (gen.length = cArgs.projects.length
        ∧ List.Perm (gen.map Rule.name)
            (cArgs.projects.map (fun p => importPathToBazelRepoName p.Name))
        ∧ List.Pairwise (fun r s : Rule => strLt s.name r.name = false) gen
        ∧ importReposWithSchedule cArgs [1, 0] = importReposFromDep cArgs) := by
  refine ⟨_, rfl, ?_⟩
  have h := importReposFromDep_count_names_sorted_schedule cArgs _ rfl
  exact ⟨h.1, h.2.1, h.2.2.1, h.2.2.2 [1, 0] (by decide)⟩

/-- C2: the two-query proxy resolution is retried up to 5 attempts with a
fixed 5-second delay between attempts on any failure; when the first `k < 5`
attempts fail and attempt `k` succeeds, exactly `k + 1` attempts and `k`
sleeps happen; when all 5 attempts fail the retry loop ends in the panic
(the unrecoverable error), and an import containing such a project yields no
rule list at all (no partial rule set). -/
theorem goProxy_retry_policy
    (env : Nat → NetEnv) (hh : List Nat → String) (base : String)
    (p : depProject) (r : Rule) :
    ((∀ j, j < 5 → ((ruleUsingGoProxy (env j) hh base p r).1).isOk = false) →
      ((retryGo env hh base p r).result).isOk = false
        ∧ (retryGo env hh base p r).attempts = 5
        ∧ (retryGo env hh base p r).sleeps = List.replicate 4 5)
    ∧ (∀ k, k < 5 → (∀ j, j < k → ((ruleUsingGoProxy (env j) hh base p r).1).isOk = false) →
        ((ruleUsingGoProxy (env k) hh base p r).1).isOk = true →
        (retryGo env hh base p r).result = (ruleUsingGoProxy (env k) hh base p r).1
          ∧ (retryGo env hh base p r).attempts = k + 1
          ∧ (retryGo env hh base p r).sleeps = List.replicate k 5)
    ∧ (∀ (b : ImportArgs) (i : Nat) (q : depProject),
        b.projects[i]? = some q →
        b.pathMatch b.GoPrivate q.Name = (false, false) →
        (∀ j, j < 5 → ((ruleUsingGoProxy (b.env i j) b.hashHex (effectiveProxy b.GoProxy) q
            (baseRule q)).1).isOk = false) →
        (importReposFromDep b).isOk = false) := by
  refine ⟨?_, ?_, ?_⟩
  · intro hf
    exact retryAux_all_fail env hh base p r 5 0 rfl (by omega) (fun j h0 h5 => hf j h5)
  · intro k hk hf hsucc
    exact retryAux_first_success env hh base p r 5 0 k rfl (by omega) hk
      (fun j h0 hjk => hf j hjk) hsucc
  · intro b i q hq hm hf
    have h1 := resolveResultsFrom_getElem? b.pathMatch b.env b.hashHex b.GoPrivate
      (effectiveProxy b.GoProxy) b.projects 0 i q hq
    rw [Nat.zero_add] at h1
    have h2 : ((resolveProject (b.pathMatch b.GoPrivate q.Name) (b.env i) b.hashHex
        (effectiveProxy b.GoProxy) q).result).isOk = false := by
      rw [hm]
      simp only [resolveProject]
      rw [if_neg (by simp)]
      exact (retryAux_all_fail (b.env i) b.hashHex (effectiveProxy b.GoProxy) q (baseRule q)
        5 0 rfl (by omega) (fun j h0 h5 => hf j h5)).1
    unfold importReposFromDep importTagged preSortRules
    rw [isOk_map, isOk_map]
    exact collectOk_isOk_false (importResolved b) i _ h1 h2

/-- Witness for C2: an always-failing proxy exhausts exactly 5 attempts with
4 sleeps and makes the whole import fail; a proxy failing twice then
succeeding uses exactly 3 attempts and 2 sleeps. -/
theorem goProxy_retry_policy_witness :
    (((retryGo cFailEnv cHH defaultGoProxyBase cProjM (baseRule cProjM)).result).isOk = false
      ∧ (retryGo cFailEnv cHH defaultGoProxyBase cProjM (baseRule cProjM)).attempts = 5
      ∧ (retryGo cFailEnv cHH defaultGoProxyBase cProjM (baseRule cProjM)).sleeps
          = List.replicate 4 5)
    ∧ ((retryGo cFlakyEnv cHH defaultGoProxyBase cProjM (baseRule cProjM)).result
          = (ruleUsingGoProxy (cFlakyEnv 2) cHH defaultGoProxyBase cProjM (baseRule cProjM)).1
        ∧ (retryGo cFlakyEnv cHH defaultGoProxyBase cProjM (baseRule cProjM)).attempts = 2 + 1
        ∧ (retryGo cFlakyEnv cHH defaultGoProxyBase cProjM (baseRule cProjM)).sleeps
            = List.replicate 2 5)
    ∧ (importReposFromDep cArgsFail).isOk = false :=
  ⟨(goProxy_retry_policy cFailEnv cHH defaultGoProxyBase cProjM (baseRule cProjM)).1
      (by decide),
   (goProxy_retry_policy cFlakyEnv cHH defaultGoProxyBase cProjM (baseRule cProjM)).2.1 2
      (by decide) (by decide) (by decide),
   (goProxy_retry_policy cFailEnv cHH defaultGoProxyBase cProjM (baseRule cProjM)).2.2
      cArgsFail 0 cProjM (by decide) (by decide) (by decide)⟩

/-- C3: a project matching the private glob pattern, or whose pattern is
malformed (`path.Match` error treated as a match), yields a rule whose
`commit` attribute is the pinned revision and issues no proxy request; with
a non-empty source override the rule additionally carries `remote` (the
override) and `vcs = "git"`. -/
theorem private_project_commit_no_network (m : Bool × Bool) (env : Nat → NetEnv)
    (hh : List Nat → String) (base : String) (p : depProject)
    (h : m.1 = true ∨ m.2 = true) :
    (resolveProject m env hh base p).requests = []
    ∧ ∃ r, (resolveProject m env hh base p).result = .ok r
        ∧ r.getAttr "commit" = some (.str p.Revision)
        ∧ (p.Source ≠ "" →
            r.getAttr "remote" = some (.str p.Source)
            ∧ r.getAttr "vcs" = some (.str "git")) := by
  have hm : (m.1 || m.2) = true := by
    rcases h with h | h <;> simp [h]
  simp only [resolveProject, if_pos hm]
  refine ⟨by trivial, ?_⟩
  by_cases hs : p.Source ≠ ""
  · rw [if_pos hs]
    refine ⟨_, rfl, ?_, fun _ => ⟨?_, ?_⟩⟩
    · simp [baseRule, Rule.new, Rule.setA, Rule.getAttr]
    · simp [baseRule, Rule.new, Rule.setA, Rule.getAttr]
    · simp [baseRule, Rule.new, Rule.setA, Rule.getAttr]
  · rw [if_neg hs]
    refine ⟨_, rfl, ?_, fun hss => absurd hss hs⟩
    simp [baseRule, Rule.new, Rule.setA, Rule.getAttr]

/-- Witness for C3 at a private project with a source override. -/
theorem private_project_commit_no_network_witness :
    (resolveProject (true, false) cFailEnv cHH defaultGoProxyBase cSrcProj).requests = []
    ∧ ∃ r, (resolveProject (true, false) cFailEnv cHH defaultGoProxyBase cSrcProj).result
          = .ok r
        ∧ r.getAttr "commit" = some (.str cSrcProj.Revision)
        ∧ (cSrcProj.Source ≠ "" →
            r.getAttr "remote" = some (.str cSrcProj.Source)
            ∧ r.getAttr "vcs" = some (.str "git")) :=
  private_project_commit_no_network (true, false) cFailEnv cHH defaultGoProxyBase cSrcProj
    (Or.inl rfl)

/-- C4: the module path used for the proxy URLs prefers a non-empty source
override, strips a trailing `.git` and a leading `https://` from it and
lower-cases the result (lower-casing the project name when there is no
override); the first URL requested is always
`{base}/{module}/@v/{revision}.info`, and `https://example.com/foo.git`
normalizes to `example.com/foo`. -/
theorem goProxy_module_path_normalization (net : NetEnv) (hh : List Nat → String)
    (base : String) (p : depProject) (r : Rule) :
    ((ruleUsingGoProxy net hh base p r).2).head?
        = some (base ++ "/" ++ proxyModuleName p ++ "/@v/" ++ p.Revision ++ ".info")
    ∧ (p.Source ≠ "" → proxyModuleName p = goToLower (stripHttps (stripDotGit p.Source)))
    ∧ (p.Source = "" → proxyModuleName p = goToLower p.Name)
    ∧ proxyModuleName cSrcGit = "example.com/foo" := by
  refine ⟨?_, ?_, ?_, by decide⟩
  · unfold ruleUsingGoProxy
    dsimp only
    repeat' split
    all_goals rfl
  · intro hs
    unfold proxyModuleName
    rw [if_pos hs]
  · intro hs
    unfold proxyModuleName
    rw [if_neg (fun hc => hc hs)]

/-- Witness for C4 at the `https://example.com/foo.git` override. -/
theorem goProxy_module_path_normalization_witness :
    ((ruleUsingGoProxy cNet cHH defaultGoProxyBase cSrcGit (baseRule cSrcGit)).2).head?
        = some (defaultGoProxyBase ++ "/" ++ proxyModuleName cSrcGit ++ "/@v/"
            ++ cSrcGit.Revision ++ ".info")
    ∧ proxyModuleName cSrcGit = goToLower (stripHttps (stripDotGit cSrcGit.Source))
    ∧ proxyModuleName cSrcGit = "example.com/foo" :=
  ⟨(goProxy_module_path_normalization cNet cHH defaultGoProxyBase cSrcGit
      (baseRule cSrcGit)).1,
   (goProxy_module_path_normalization cNet cHH defaultGoProxyBase cSrcGit
      (baseRule cSrcGit)).2.1 (by decide),
   (goProxy_module_path_normalization cNet cHH defaultGoProxyBase cSrcGit
      (baseRule cSrcGit)).2.2.2⟩

/-- C10: the final ordering is stable — when two distinct slots `i < j`
derive equal rule names, the slot-tagged pair `(i, rᵢ)` still precedes
`(j, rⱼ)` in the sorted output, and the returned rules are exactly the
sorted tagged rules without their tags. -/
theorem importReposFromDep_stable_for_equal_rule_names
    (a : ImportArgs) (rs : List Rule) (i j : Nat) (ri rj : Rule)
    (hrs : preSortRules a = .ok rs) (hij : i < j)
    (hi : rs[i]? = some ri) (hj : rs[j]? = some rj)
    (hname : ri.name = rj.name) :
    importReposFromDep a = .ok ((sortTagged rs.enum).map Prod.snd)
    ∧ List.Sublist [(i, ri), (j, rj)] (sortTagged rs.enum) := by
  constructor
  · unfold importReposFromDep importTagged
    rw [hrs]
    rfl
  · have hei : rs.enum[i]? = some (i, ri) := by
      rw [List.getElem?_enum, hi]
      rfl
    have hej : rs.enum[j]? = some (j, rj) := by
      rw [List.getElem?_enum, hj]
      rfl
    exact sortTagged_stable hname
      (pair_sublist_of_getElem? rs.enum i j (i, ri) (j, rj) hij hei hej)

/-- Witness for C10 at two projects (`a/b`, `a.b`) whose derived rule names
collide as `a_b`. -/
theorem importReposFromDep_stable_for_equal_rule_names_witness :
    importReposFromDep cArgsDup = .ok ((sortTagged cRsDup.enum).map Prod.snd)
    ∧ List.Sublist [(0, cRiDup), (1, cRjDup)] (sortTagged cRsDup.enum) :=
  importReposFromDep_stable_for_equal_rule_names cArgsDup cRsDup 0 1 cRiDup cRjDup
    rfl (by decide) (by decide) (by decide) (by decide)

/-! The claims about the autogazelle helpers. -/

/-- C5: a successful `restoreFile` writes exactly the fixed header followed
byte-for-byte by the source bytes, fully overwriting the destination and
touching no other path; with distinct source and destination (always the
case for `<X>.in` → `<X>`), restoring a second time yields the same
destination content. -/
theorem restoreFile_header_content_idempotent (prog : String) (canCreate : String → Bool)
    (fs : FS) (src dest B : String) (hsrc : fs src = some B) (hcc : canCreate dest = true)
    (hne : src ≠ dest) :
    restoreFile prog canCreate fs src dest
      = (none, updateFS fs dest (genHeader (baseName src) prog ++ B))
    ∧ updateFS fs dest (genHeader (baseName src) prog ++ B) dest
      = some (genHeader (baseName src) prog ++ B)
    ∧ (∀ q, q ≠ dest → updateFS fs dest (genHeader (baseName src) prog ++ B) q = fs q)
    ∧ restoreFile prog canCreate (updateFS fs dest (genHeader (baseName src) prog ++ B))
        src dest
      = (none, updateFS fs dest (genHeader (baseName src) prog ++ B)) := by
  have h2 : updateFS fs dest (genHeader (baseName src) prog ++ B) src = some B := by
    simp only [updateFS, if_neg hne]
    exact hsrc
  have hcollapse : updateFS (updateFS fs dest (genHeader (baseName src) prog ++ B)) dest
      (genHeader (baseName src) prog ++ B)
      = updateFS fs dest (genHeader (baseName src) prog ++ B) := by
    funext q
    by_cases hq : q = dest <;> simp [updateFS, hq]
  refine ⟨?_, ?_, ?_, ?_⟩
  · simp [restoreFile, hsrc, hcc]
  · simp [updateFS]
  · intro q hq
    simp [updateFS, hq]
  · simp [restoreFile, h2, hcc, hcollapse]

/-- Witness for C5 at a one-file filesystem (membership of the untouched
path instantiated at the source path). -/
theorem restoreFile_header_content_idempotent_witness :
    restoreFile "autogazelle" (fun _ => true) cFS "d/BUILD.in" "d/BUILD"
      = (none, updateFS cFS "d/BUILD"
          (genHeader (baseName "d/BUILD.in") "autogazelle" ++ "go_library()"))
    ∧ updateFS cFS "d/BUILD"
        (genHeader (baseName "d/BUILD.in") "autogazelle" ++ "go_library()") "d/BUILD"
      = some (genHeader (baseName "d/BUILD.in") "autogazelle" ++ "go_library()")
    ∧ updateFS cFS "d/BUILD"
        (genHeader (baseName "d/BUILD.in") "autogazelle" ++ "go_library()") "d/BUILD.in"
      = cFS "d/BUILD.in"
    ∧ restoreFile "autogazelle" (fun _ => true)
        (updateFS cFS "d/BUILD"
          (genHeader (baseName "d/BUILD.in") "autogazelle" ++ "go_library()"))
        "d/BUILD.in" "d/BUILD"
      = (none, updateFS cFS "d/BUILD"
          (genHeader (baseName "d/BUILD.in") "autogazelle" ++ "go_library()")) :=
  ⟨(restoreFile_header_content_idempotent "autogazelle" (fun _ => true) cFS "d/BUILD.in"
      "d/BUILD" "go_library()" (by decide) rfl (by decide)).1,
   (restoreFile_header_content_idempotent "autogazelle" (fun _ => true) cFS "d/BUILD.in"
      "d/BUILD" "go_library()" (by decide) rfl (by decide)).2.1,
   (restoreFile_header_content_idempotent "autogazelle" (fun _ => true) cFS "d/BUILD.in"
      "d/BUILD" "go_library()" (by decide) rfl (by decide)).2.2.1 "d/BUILD.in" (by decide),
   (restoreFile_header_content_idempotent "autogazelle" (fun _ => true) cFS "d/BUILD.in"
      "d/BUILD" "go_library()" (by decide) rfl (by decide)).2.2.2⟩

/-- C6 counterexample: with a root that cannot be made absolute the walk
aborts without invoking the callback, but no error reaches the caller — the
Go signature `func walkWorkspace(root string, walkFunc ...)` returns
nothing, so the failure is only logged.  This refutes "reports the error to
the caller". -/
theorem walkWorkspace_error_not_returned_counterexample :
    (walkWorkspace (fun _ => .error "getwd failed") (fun _ => []) ".").calls = []
    ∧ (walkWorkspace (fun _ => .error "getwd failed") (fun _ => []) ".").callerErr = none
    ∧ (walkWorkspace (fun _ => .error "getwd failed") (fun _ => []) ".").logMsgs
        = ["failed to find absolute path: getwd failed"] :=
  ⟨rfl, rfl, rfl⟩

/-- C6 amended: if the root cannot be made absolute, the walk logs
`failed to find absolute path: <err>` and returns without invoking the
per-directory callback for any directory; no error is returned to the
caller. -/
theorem walkWorkspace_abs_failure_logs_no_callback
    (absPath : String → Except String String)
    (walkEngine : String → List (String × List String)) (root e : String)
    (h : absPath root = .error e) :
    walkWorkspace absPath walkEngine root
      = ⟨[], ["failed to find absolute path: " ++ e], none⟩ := by
  unfold walkWorkspace
  rw [h]

/-- Witness for the amended C6. -/
theorem walkWorkspace_abs_failure_logs_no_callback_witness :
    walkWorkspace (fun _ => .error "getwd failed") (fun _ => []) "."
      = ⟨[], ["failed to find absolute path: " ++ "getwd failed"], none⟩ :=
  walkWorkspace_abs_failure_logs_no_callback (fun _ => .error "getwd failed") (fun _ => [])
    "." "getwd failed" rfl

/-- C7: in fast mode with an empty directory set no process is launched and
success is reported; in fast mode with a non-empty set the launched argv is
the fixed prelude followed by `-r=false` (recursion disabled) and exactly
the given directories. -/
theorem runGazelle_fast_mode_contract (bazelReal gl : String)
    (runOracle : List String → Except String Unit) (dirs : List String) :
    runGazelle bazelReal gl runOracle Mode.fastMode [] = ⟨none, .ok ()⟩
    ∧ (dirs ≠ [] →
        runGazelle bazelReal gl runOracle Mode.fastMode dirs
          = ⟨some ([bazelReal, "run", gl, "--", "-args", "-index=false", "-r=false"] ++ dirs),
             runOracle ([bazelReal, "run", gl, "--", "-args", "-index=false", "-r=false"]
               ++ dirs)⟩) := by
  constructor
  · rw [runGazelle, if_pos ⟨rfl, rfl⟩]
  · intro hd
    rw [runGazelle, if_neg (fun hc => hd hc.2)]
    dsimp only
    rw [if_pos rfl]
    simp

/-- Witness for C7 at a two-directory fast run. -/
theorem runGazelle_fast_mode_contract_witness :
    runGazelle "bazel" "//:gazelle" (fun _ => .ok ()) Mode.fastMode [] = ⟨none, .ok ()⟩
    ∧ runGazelle "bazel" "//:gazelle" (fun _ => .ok ()) Mode.fastMode ["a", "b"]
        = ⟨some (["bazel", "run", "//:gazelle", "--", "-args", "-index=false", "-r=false"]
            ++ ["a", "b"]),
           (fun _ => .ok ()) (["bazel", "run", "//:gazelle", "--", "-args", "-index=false",
             "-r=false"] ++ ["a", "b"])⟩ :=
  ⟨(runGazelle_fast_mode_contract "bazel" "//:gazelle" (fun _ => .ok ()) ["a", "b"]).1,
   (runGazelle_fast_mode_contract "bazel" "//:gazelle" (fun _ => .ok ()) ["a", "b"]).2
     (by decide)⟩

theorem restoreStep_checked (prog : String) (canCreate : String → Bool) (dir : String)
    (st : DirRestoreOut) (base : String) :
    (restoreStep prog canCreate dir st base).checked
      = st.checked ++ [joinPath dir (base ++ ".in")] := by
  unfold restoreStep
  dsimp only
  split
  · rfl
  · split <;> rfl

/-- C8: `restoreBuildFilesInDir` stats the `.in` sources in the fixed order
`BUILD.bazel.in` before `BUILD.in`; a missing `.in` source is skipped
silently (the first step leaves everything but the recorded stat unchanged);
when neither source exists the call is a no-op that reports no error. -/
theorem restoreBuildFilesInDir_order_skip_noop (prog : String) (canCreate : String → Bool)
    (fs : FS) (dir : String) :
    (restoreBuildFilesInDir prog canCreate fs dir).checked
      = [joinPath dir "BUILD.bazel.in", joinPath dir "BUILD.in"]
    ∧ (fs (joinPath dir "BUILD.bazel.in") = none →
        restoreBuildFilesInDir prog canCreate fs dir
          = restoreStep prog canCreate dir ⟨fs, [joinPath dir "BUILD.bazel.in"], []⟩ "BUILD")
    ∧ (fs (joinPath dir "BUILD.bazel.in") = none → fs (joinPath dir "BUILD.in") = none →
        restoreBuildFilesInDir prog canCreate fs dir
          = ⟨fs, [joinPath dir "BUILD.bazel.in", joinPath dir "BUILD.in"], []⟩) := by
  have e1 : ("BUILD.bazel" ++ ".in" : String) = "BUILD.bazel.in" := rfl
  have e2 : ("BUILD" ++ ".in" : String) = "BUILD.in" := rfl
  have hunfold : restoreBuildFilesInDir prog canCreate fs dir
      = restoreStep prog canCreate dir
          (restoreStep prog canCreate dir ⟨fs, [], []⟩ "BUILD.bazel") "BUILD" := rfl
  refine ⟨?_, ?_, ?_⟩
  · rw [hunfold, restoreStep_checked, restoreStep_checked, e1, e2]
    rfl
  · intro h1
    have hstep1 : restoreStep prog canCreate dir ⟨fs, [], []⟩ "BUILD.bazel"
        = ⟨fs, [joinPath dir "BUILD.bazel.in"], []⟩ := by
      unfold restoreStep
      dsimp only
      rw [e1, h1]
      rfl
    rw [hunfold, hstep1]
  · intro h1 h2
    have hstep1 : restoreStep prog canCreate dir ⟨fs, [], []⟩ "BUILD.bazel"
        = ⟨fs, [joinPath dir "BUILD.bazel.in"], []⟩ := by
      unfold restoreStep
      dsimp only
      rw [e1, h1]
      rfl
    have hstep2 : restoreStep prog canCreate dir
        ⟨fs, [joinPath dir "BUILD.bazel.in"], []⟩ "BUILD"
        = ⟨fs, [joinPath dir "BUILD.bazel.in", joinPath dir "BUILD.in"], []⟩ := by
      unfold restoreStep
      dsimp only
      rw [e2, h2]
      rfl
    rw [hunfold, hstep1, hstep2]

/-- Witness for C8 at an empty filesystem. -/
theorem restoreBuildFilesInDir_order_skip_noop_witness :
    (restoreBuildFilesInDir "autogazelle" (fun _ => true) (fun _ => none) "d").checked
      = [joinPath "d" "BUILD.bazel.in", joinPath "d" "BUILD.in"]
    ∧ restoreBuildFilesInDir "autogazelle" (fun _ => true) (fun _ => none) "d"
        = restoreStep "autogazelle" (fun _ => true) "d"
            ⟨fun _ => none, [joinPath "d" "BUILD.bazel.in"], []⟩ "BUILD"
    ∧ restoreBuildFilesInDir "autogazelle" (fun _ => true) (fun _ => none) "d"
        = ⟨fun _ => none, [joinPath "d" "BUILD.bazel.in", joinPath "d" "BUILD.in"], []⟩ :=
  ⟨(restoreBuildFilesInDir_order_skip_noop "autogazelle" (fun _ => true) (fun _ => none)
      "d").1,
   (restoreBuildFilesInDir_order_skip_noop "autogazelle" (fun _ => true) (fun _ => none)
      "d").2.1 rfl,
   (restoreBuildFilesInDir_order_skip_noop "autogazelle" (fun _ => true) (fun _ => none)
      "d").2.2 rfl rfl⟩

/-- C9: when the template source cannot be opened, `restoreFile` returns
that error before the destination is opened for writing: the filesystem —
and hence the destination's prior content — is unchanged on this path. -/
theorem restoreFile_src_open_error (prog : String) (canCreate : String → Bool) (fs : FS)
    (src dest : String) (h : fs src = none) :
    restoreFile prog canCreate fs src dest = (some RestoreErr.openSrc, fs) := by
  simp [restoreFile, h]

/-- Witness for C9 at an empty filesystem. -/
theorem restoreFile_src_open_error_witness :
    restoreFile "autogazelle" (fun _ => true) (fun _ => none) "d/BUILD.in" "d/BUILD"
      = (some RestoreErr.openSrc, fun _ => none) :=
  restoreFile_src_open_error "autogazelle" (fun _ => true) (fun _ => none) "d/BUILD.in"
    "d/BUILD" rfl

end GazelleSpec
